import Mathlib

/-!
# Verification of the hackerargs configuration store

Shallow embedding of `src/hackerargs/args.py` (class `WriteOnceDict`),
`src/hackerargs/strict_bool_yaml.py` and `src/hackerargs/argparse_access.py`.

Conventions of the embedding:

* Python `dict[str, Any]` becomes an association list `Store` whose insert
  operation (`dictInsert`) updates in place when the key exists and appends
  otherwise, matching the insertion-order semantics of Python dicts.
* The PyYAML scalar pipeline (`yaml.load(stream, Loader = StrictBoolSafeLoader)`
  applied to a single scalar token, as done at `args.py` lines 243-244 and 270)
  is modelled by `yamlLoadScalar`: the implicit-resolver table of
  `yaml/resolver.py`, with the modification performed by
  `strict_bool_yaml.py` (the boolean resolver entries for first characters
  `O o Y y N n` are removed), followed by the scalar constructors of
  `yaml/constructor.py` (`construct_yaml_int`, `construct_yaml_float`,
  `construct_yaml_bool`, `construct_yaml_null`).  The sexagesimal (`1:30`),
  timestamp, `merge`, `value` and `yaml` resolver entries are not modelled
  (such scalars are treated as strings); Python binary floats are modelled
  exactly as decimal rationals `m / 10 ^ e`.
* Reading a YAML *file* returns an already-parsed mapping; the filesystem is
  a capability `String → Option Store` passed to `parseArgs`.
* Machine errors (`ValueError`, `IndexError`, `FileNotFoundError`) become the
  constructors of `Err`, one per `raise` site reachable from `parse_args`.
-/

namespace Hackerargs

/-- A dynamically typed configuration value.  Finite floats are represented
exactly as `m / 10 ^ e` (Python float reprs round-trip exactly, so a decimal
rational is a faithful model of the float leaves the program produces);
`vinf`/`vnan` model the YAML `.inf`/`.nan` scalars. -/
inductive Value where
  | vint (n : Int)
  | vfloat (m : Int) (e : Nat)
  | vinf (pos : Bool)
  | vnan
  | vbool (b : Bool)
  | vnull
  | vstr (s : String)
deriving DecidableEq, Repr

/-! ## Character helpers and digit parsing -/

def isDig (c : Char) : Bool := 48 ≤ c.toNat && c.toNat ≤ 57

/-- Nonzero decimal digit (the `[1-9]` regex class). -/
def isDig19 (c : Char) : Bool := 49 ≤ c.toNat && c.toNat ≤ 57

/-- The `[0-9_]` regex class. -/
def isDigU (c : Char) : Bool := isDig c || c = '_'

/-- The `[0-7_]` regex class. -/
def isOctU (c : Char) : Bool := (48 ≤ c.toNat && c.toNat ≤ 55) || c = '_'

/-- The `[0-1_]` regex class. -/
def isBitU (c : Char) : Bool := c = '0' || c = '1' || c = '_'

/-- The `[0-9a-fA-F_]` regex class. -/
def isHexU (c : Char) : Bool :=
  isDig c || (97 ≤ c.toNat && c.toNat ≤ 102) || (65 ≤ c.toNat && c.toNat ≤ 70) || c = '_'

/-- Numeric value of a digit character (`int(c, base)` for one character;
hex letters included).  Defaults to 0 on non-digits. -/
def digVal (c : Char) : Nat :=
  if 48 ≤ c.toNat && c.toNat ≤ 57 then c.toNat - 48
  else if 97 ≤ c.toNat && c.toNat ≤ 102 then c.toNat - 87
  else if 65 ≤ c.toNat && c.toNat ≤ 70 then c.toNat - 55
  else 0

/-- `int(s, base)` on a list of digit characters (underscores already removed). -/
def parseDigitsB (base : Nat) (l : List Char) : Nat :=
  l.foldl (fun a c => a * base + digVal c) 0

/-- Strip one optional leading sign (the `[-+]?` regex prefix). -/
def stripSign1 (l : List Char) : List Char :=
  if l.take 1 = ['-'] || l.take 1 = ['+'] then l.drop 1 else l

/-! ## The PyYAML implicit-resolver regexes (`yaml/resolver.py`) -/

/-- `^(?:~|null|Null|NULL|)$` -/
def nullMatch (s : String) : Bool := s ∈ ["~", "null", "Null", "NULL", ""]

/-- `^(?:yes|Yes|YES|no|No|NO|true|True|TRUE|false|False|FALSE|on|On|ON|off|Off|OFF)$` -/
def boolMatch (s : String) : Bool :=
  s ∈ ["yes", "Yes", "YES", "no", "No", "NO", "true", "True", "TRUE",
       "false", "False", "FALSE", "on", "On", "ON", "off", "Off", "OFF"]

/-- Body of the int regex after the optional sign:
`0b[0-1_]+ | 0[0-7_]+ | (?:0|[1-9][0-9_]*) | 0x[0-9a-fA-F_]+`
(the sexagesimal alternative is not modelled). -/
def intBody (l : List Char) : Bool :=
  if l.take 2 = ['0', 'b'] then l.drop 2 ≠ [] && (l.drop 2).all isBitU
  else if l.take 2 = ['0', 'x'] then l.drop 2 ≠ [] && (l.drop 2).all isHexU
  else if l = ['0'] then true
  else if l.take 1 = ['0'] then l.drop 1 ≠ [] && (l.drop 1).all isOctU
  else
    match l with
    | c :: rest => isDig19 c && rest.all isDigU
    | [] => false

/-- `tag:yaml.org,2002:int` implicit regex. -/
def intMatch (s : String) : Bool := intBody (stripSign1 s.data)

/-- Optional exponent suffix `(?:[eE][-+][0-9]+)?` — note PyYAML *requires*
the exponent sign. -/
def expOk (l : List Char) : Bool :=
  if l = [] then true
  else if l.take 1 = ['e'] || l.take 1 = ['E'] then
    let r := l.drop 1
    (r.take 1 = ['+'] || r.take 1 = ['-']) && r.drop 1 ≠ [] && (r.drop 1).all isDig
  else false

/-- `[0-9][0-9_]*\.[0-9_]*(?:[eE][-+][0-9]+)?` (sign already stripped). -/
def floatBody1 (l : List Char) : Bool :=
  match l with
  | c :: rest =>
    isDig c &&
      (let r2 := rest.dropWhile isDigU
       if r2.take 1 = ['.'] then expOk ((r2.drop 1).dropWhile isDigU) else false)
  | [] => false

/-- `\.[0-9][0-9_]*(?:[eE][-+][0-9]+)?` — no sign allowed by PyYAML. -/
def floatBody2 (l : List Char) : Bool :=
  if l.take 1 = ['.'] then
    let r := l.drop 1
    (match r with
     | c :: _ => isDig c
     | [] => false) && expOk (r.dropWhile isDigU)
  else false

/-- `tag:yaml.org,2002:float` implicit regex (the sexagesimal alternative is
not modelled). -/
def floatMatch (s : String) : Bool :=
  floatBody1 (stripSign1 s.data) || floatBody2 s.data ||
  stripSign1 s.data ∈ [".inf".data, ".Inf".data, ".INF".data] ||
  s.data ∈ [".nan".data, ".NaN".data, ".NAN".data]

/-! ## Implicit resolution -/

inductive Tag where
  | tbool | tfloat | tint | tnull | tstr
deriving DecidableEq, Repr

def regexMatch : Tag → String → Bool
  | .tbool, s => boolMatch s
  | .tfloat, s => floatMatch s
  | .tint, s => intMatch s
  | .tnull, s => nullMatch s
  | .tstr, _ => false

/-- The per-first-character resolver lists of `yaml/resolver.py` (in
registration order `bool < float < int < null`), restricted to the scalar
tags modelled here.  When `strict = true` this is the table after
`strict_bool_yaml.py` ran: the entries for `O o Y y` are deleted and the
bool entry is filtered out of the `N n` lists. -/
def resolversFor (strict : Bool) (c : Char) : List Tag :=
  if c = 'y' ∨ c = 'Y' ∨ c = 'o' ∨ c = 'O' then if strict then [] else [.tbool]
  else if c = 'n' ∨ c = 'N' then if strict then [.tnull] else [.tbool, .tnull]
  else if c = 't' ∨ c = 'T' ∨ c = 'f' ∨ c = 'F' then [.tbool]
  else if c = '-' ∨ c = '+' ∨ c = '.' then [.tfloat, .tint]
  else if isDig c then [.tfloat, .tint]
  else if c = '~' then [.tnull]
  else []

/-- `BaseResolver.resolve` on a plain scalar: first matching implicit
resolver for the first character, else the default `str` tag. -/
def resolveTag (strict : Bool) (s : String) : Tag :=
  let rs := match s.data with
    | [] => [Tag.tnull]
    | c :: _ => resolversFor strict c
  ((rs.find? fun t => regexMatch t s).getD .tstr)

/-! ## Scalar construction (`yaml/constructor.py`) -/

/-- `SafeConstructor.construct_yaml_int` after sign and underscore removal. -/
def constructIntCore (l : List Char) : Nat :=
  if l.take 2 = ['0', 'b'] then parseDigitsB 2 (l.drop 2)
  else if l.take 2 = ['0', 'x'] then parseDigitsB 16 (l.drop 2)
  else if l.take 1 = ['0'] && l.length ≠ 1 then parseDigitsB 8 (l.drop 1)
  else parseDigitsB 10 l

/-- `SafeConstructor.construct_yaml_int`. -/
def constructInt (s : String) : Int :=
  let l := s.data.filter (fun c => c ≠ '_')
  if l.take 1 = ['-'] then -(constructIntCore (l.drop 1) : Int)
  else if l.take 1 = ['+'] then (constructIntCore (l.drop 1) : Int)
  else (constructIntCore l : Int)

/-- Put `m / 10 ^ e` in lowest decimal terms (Python floats do not remember
trailing zeros, so equal floats must get equal representations). -/
def normFloat (m : Int) (e : Nat) : Value :=
  match e with
  | 0 => .vfloat m 0
  | e2 + 1 => if m % 10 = 0 then normFloat (m / 10) e2 else .vfloat m (e2 + 1)

/-- Mantissa/scale pair adjusted by a decimal exponent `k`. -/
def mkFloatE (m : Int) (e : Nat) (k : Int) : Value :=
  if 0 ≤ k then normFloat (m * (10 : Int) ^ k.toNat) e
  else normFloat m (e + (-k).toNat)

/-- `SafeConstructor.construct_yaml_float` (`float(value)` on the matched
`digits.digits[e±digits]` form, modelled exactly as a decimal rational). -/
def constructFloat (s : String) : Value :=
  let l := (s.data.filter (fun c => c ≠ '_')).map Char.toLower
  let neg := l.take 1 = ['-']
  let lb := if l.take 1 = ['-'] || l.take 1 = ['+'] then l.drop 1 else l
  if lb = ".inf".data then .vinf (!neg)
  else if lb = ".nan".data then .vnan
  else
    let intPart := lb.takeWhile (fun c => c ≠ '.')
    let rest := (lb.dropWhile (fun c => c ≠ '.')).drop 1
    let frac := rest.takeWhile isDig
    let expPart := rest.dropWhile isDig
    let mant : Nat := parseDigitsB 10 intPart * 10 ^ frac.length + parseDigitsB 10 frac
    let k : Int :=
      if expPart.take 2 = ['e', '+'] then (parseDigitsB 10 (expPart.drop 2) : Int)
      else if expPart.take 2 = ['e', '-'] then -(parseDigitsB 10 (expPart.drop 2) : Int)
      else 0
    mkFloatE (if neg then -(mant : Int) else (mant : Int)) frac.length k

/-- `SafeConstructor.construct_yaml_bool`: membership in the truthy half of
`bool_values` (lowercased). -/
def constructBool (s : String) : Bool :=
  s ∈ ["yes", "Yes", "YES", "true", "True", "TRUE", "on", "On", "ON"]

/-- `yaml_load` (`args.py` lines 65-75) applied to a single scalar token:
resolve with the strict-bool table, then construct. -/
def yamlLoadScalar (s : String) : Value :=
  match resolveTag true s with
  | .tint => .vint (constructInt s)
  | .tfloat => constructFloat s
  | .tbool => .vbool (constructBool s)
  | .tnull => .vnull
  | .tstr => .vstr s

/-! ## The write-once store (`WriteOnceDict`, `args.py` lines 78-131)

`_privatedict` is modelled as an association list in insertion order. -/

/-- `dict[str, Any]` in insertion order. -/
abbrev Store := List (String × Value)

/-- `d[k]` as an option (`None` for a missing key). -/
def lookupStore : Store → String → Option Value
  | [], _ => none
  | (k0, v0) :: rest, k => if k0 = k then some v0 else lookupStore rest k

/-- `key in dict`. -/
def containsKey (s : Store) (k : String) : Bool := (lookupStore s k).isSome

/-- Plain Python dict assignment `d[k] = v`: update in place when the key
exists, append otherwise. -/
def dictInsert : Store → String → Value → Store
  | [], k, v => [(k, v)]
  | (k0, v0) :: rest, k, v =>
    if k0 = k then (k0, v) :: rest else (k0, v0) :: dictInsert rest k v

/-- `WriteOnceDict.setdefault` (`args.py` lines 118-125): if the key is
absent, store the default; then return the stored value together with the
resulting store. -/
def setdefault (s : Store) (k : String) (v : Value) : Store × Value :=
  match lookupStore s k with
  | some w => (s, w)
  | none => (dictInsert s k v, v)

/-! ## The declared-parser boundary (`argparse`)

The spec treats the argparse parser as an external capability: a set of
declared actions, each with a destination name, a positional/optional kind
and a default.  `parseKnownArgs` models `parser.parse_known_args()` for
`--name value` optional flags on `sys.argv[1:]`: the namespace starts from
the declared defaults and is overridden left to right by `--name value`
token pairs; every unconsumed token becomes residual unknown input.
(Prefix abbreviation and positional consumption are not modelled; the
theorems use flag-only parsers.) -/

structure ArgAction where
  dest : String
  isPositional : Bool
  default : Value
deriving DecidableEq, Repr

/-- Declared optional flag matching a `--dest` token. -/
def findAction (acts : List ArgAction) (tok : String) : Option ArgAction :=
  acts.find? fun a => a.isPositional = false && tok = "--" ++ a.dest

def pkaGo (acts : List ArgAction) : List String → Store → List String → Store × List String
  | [], ns, unk => (ns, unk.reverse)
  | [t], ns, unk => pkaGo acts [] ns (t :: unk)
  | t :: v :: rest2, ns, unk =>
    match findAction acts t with
    | some a => pkaGo acts rest2 (dictInsert ns a.dest (.vstr v)) unk
    | none => pkaGo acts (v :: rest2) ns (t :: unk)

/-- `parser.parse_known_args()`: `(vars(args_namespace), unknown)`. -/
def parseKnownArgs (acts : List ArgAction) (argvTail : List String) : Store × List String :=
  pkaGo acts argvTail ((acts.filter fun a => !a.isPositional).map fun a => (a.dest, a.default)) []

/-- `get_positional_keys` (`argparse_access.py` lines 7-12): destination
names of the positional actions of a parser. -/
def get_positional_keys (acts : List ArgAction) : List String :=
  (acts.filter fun a => a.isPositional).map fun a => a.dest

/-! ## The merge engine (`WriteOnceDict.parse_args`, `args.py` lines 136-271) -/

/-- One constructor per `raise`/builtin-error site reachable from
`parse_args` (the Python code raises `ValueError` with distinct messages,
plus the unguarded `IndexError` and `open`'s `FileNotFoundError`). -/
inductive Err where
  | alreadyInit        -- lines 168-172: non-empty store at entry
  | ambiguousSource    -- lines 177-178 and 182-183: > 1 yaml or > 1 parser
  | configIndexOut     -- line 188: `sys.argv[idx + 1]` past the end
  | fileNotFound       -- line 210: `open(yaml_fn)` fails
  | oddUnknown         -- lines 254-255
  | malformedKey       -- lines 261-264
  | duplicateUnknown   -- lines 265-266
deriving DecidableEq, Repr

/-- `f'--{k}' not in sys.argv and f'-{k}' not in sys.argv`
(`args.py` line 231). -/
def noSpecB (argv : List String) (k : String) : Bool :=
  !(argv.contains ("--" ++ k)) && !(argv.contains ("-" ++ k))

/-- One iteration of the loop at `args.py` lines 232-247. -/
def updParsedStep (argv : List String) (s : Store) (kv : String × Value) : Store :=
  if noSpecB argv kv.1 && containsKey s kv.1 then s
  else
    match kv.2 with
    | .vstr raw => dictInsert s kv.1 (yamlLoadScalar raw)
    | v => dictInsert s kv.1 v

/-- The declared-args update loop (`args.py` lines 230-247). -/
def updateParsed (s : Store) (argv : List String) (ns : Store) : Store :=
  ns.foldl (updParsedStep argv) s

/-- `unknown[0::2]`/`unknown[1::2]` paired up, as walked by the loop at
`args.py` lines 257-270. -/
def toPairs : List String → List (String × String)
  | a :: b :: rest => (a, b) :: toPairs rest
  | _ => []

/-- `key[:2] == '--'`. -/
def startsDashDash (t : String) : Bool := t.data.take 2 = ['-', '-']

/-- `key[2:]`. -/
def trim2 (t : String) : String := String.mk (t.data.drop 2)

def updUnknownGo (s : Store) (seen : List String) : List (String × String) → Except Err Store
  | [] => .ok s
  | (k, v) :: rest =>
    if startsDashDash k = false then .error .malformedKey
    else if seen.contains k then .error .duplicateUnknown
    else updUnknownGo (dictInsert s (trim2 k) (yamlLoadScalar v)) (k :: seen) rest

/-- `WriteOnceDict.__update_with_unknown_cli_args` (`args.py` lines 252-271). -/
def updateUnknown (s : Store) (unknown : List String) : Except Err Store :=
  if unknown.length % 2 ≠ 0 then .error .oddUnknown
  else updUnknownGo s [] (toPairs unknown)

/-- `WriteOnceDict.__parse_cli_args` (`args.py` lines 215-250); a missing
parser means the empty `ArgumentParser(allow_abbrev = False)`. -/
def parseCliArgs (s : Store) (parserOpt : Option (List ArgAction)) (argv : List String) :
    Except Err Store :=
  let acts := parserOpt.getD []
  let pr := parseKnownArgs acts (argv.drop 1)
  updateUnknown (updateParsed s argv pr.1) pr.2

/-- A positional argument of `parse_args`: a Python string or an
`ArgumentParser` (any other type would be silently ignored by both filters,
exactly like a non-yaml string is). -/
inductive Inp where
  | strArg (s : String)
  | parserArg (acts : List ArgAction)

/-- `s.endswith(suf)`. -/
def endsWithB (s suf : String) : Bool := suf.data.isSuffixOf s.data

/-- `is_yaml` (`args.py` lines 174-175). -/
def isYaml (s : String) : Bool := endsWithB s ".yaml" || endsWithB s ".yml"

/-- `yaml_files` (`args.py` line 176). -/
def yamlInps (inps : List Inp) : List String :=
  inps.filterMap fun i =>
    match i with
    | .strArg s => if isYaml s then some s else none
    | _ => none

/-- `parsers` (`args.py` line 181). -/
def parserInps (inps : List Inp) : List (List ArgAction) :=
  inps.filterMap fun i =>
    match i with
    | .parserArg p => some p
    | _ => none

/-- `sys.argv.index(t)` (position of the first occurrence). -/
def idxOf : List String → String → Nat
  | [], _ => 0
  | x :: r, t => if x = t then 0 else idxOf r t + 1

/-- `l[n]` as an option. -/
def nth : List String → Nat → Option String
  | [], _ => none
  | x :: _, 0 => some x
  | _ :: r, n + 1 => nth r n

/-- `WriteOnceDict.parse_args` (`args.py` lines 136-213).  `argv` models
`sys.argv` (program name first); `fs` is the filesystem capability mapping a
path to the parsed mapping `yaml_load` returns for it. -/
def parseArgs (s : Store) (inps : List Inp) (argv : List String)
    (fs : String → Option Store) : Except Err Store :=
  if s ≠ [] then .error .alreadyInit
  else if 1 < (yamlInps inps).length then .error .ambiguousSource
  else if 1 < (parserInps inps).length then .error .ambiguousSource
  else
    let maybeYaml := (yamlInps inps).head?
    let parserOpt := (parserInps inps).head?
    let cliYaml : Except Err (Option String) :=
      if argv.contains "--config" then
        match nth argv (idxOf argv "--config" + 1) with
        | some p => .ok (some p)
        | none => .error .configIndexOut
      else .ok none
    match cliYaml with
    | .error e => .error e
    | .ok cy =>
      match cy.or maybeYaml with
      | none => parseCliArgs s parserOpt argv
      | some fn =>
        match fs fn with
        | none => .error .fileNotFound
        | some m => parseCliArgs m parserOpt argv

/-! ## Persistence (`save_to_yaml`, `args.py` lines 273-283, and reloading)

`yaml.dump` on a flat string-keyed mapping of scalars emits one
`key: value` line per entry; reloading parses each scalar back.  The model
keeps the document layer (the `key: value` line framing, which belongs
wholly to the PyYAML library) abstract as an association of rendered
scalars: `dumpPairs` renders every key and value the way the default
`yaml.Dumper` does — plain for scalars whose plain form re-resolves to
their own tag, single-quoted otherwise (this is what makes the string
`"yes"` survive: the *dumper's* resolver still treats `yes` as a boolean,
so it is emitted quoted) — and `loadPairs` resolves each rendered scalar
with the strict-bool loader.  Single-quote escaping (`''`) inside quoted
scalars is not re-parsed, matching its behavior on apostrophe-free text. -/

/-- The single-quote character (`chr 39`). -/
def quoteChar : Char := Char.ofNat 39

/-- Decimal digit characters of `n`, most significant first (`str(n)`
without sign). -/
def natToChars (n : Nat) : List Char :=
  if n = 0 then ['0'] else ((Nat.digits 10 n).map Nat.digitChar).reverse

/-- `str(int)`. -/
def renderInt (n : Int) : String :=
  if n < 0 then String.mk ('-' :: natToChars n.natAbs) else String.mk (natToChars n.natAbs)

/-- `repr(float)` of the decimal `m / 10 ^ e`, always in `digits.digits`
form (Python guarantees `float(repr(x)) == x`; the model renders the exact
decimal). -/
def renderFloat (m : Int) (e : Nat) : String :=
  let n := m.natAbs
  let ip := n / 10 ^ e
  let fr := n % 10 ^ e
  let fracChars := List.replicate (e - (natToChars fr).length) '0' ++ natToChars fr
  String.mk ((if m < 0 then ['-'] else []) ++ natToChars ip ++ '.' :: fracChars)

/-- A rendered scalar in single-quoted style. -/
def quoteStr (s : String) : String := String.mk (quoteChar :: s.data ++ [quoteChar])

/-- Does the rendered token start with a single quote? -/
def isQuoted (t : String) : Bool :=
  match t.data with
  | c :: _ => c = quoteChar
  | [] => false

/-- How the default `yaml.Dumper` emits a string: plain when its plain form
still resolves to `str` under the *standard* YAML 1.1 table (the dumper does
not use the strict-bool resolver), single-quoted otherwise. -/
def renderStr (s : String) : String :=
  if resolveTag false s ≠ Tag.tstr || isQuoted s then quoteStr s else s

/-- `yaml.dump` of one scalar value. -/
def renderValue : Value → String
  | .vint n => renderInt n
  | .vfloat m e => renderFloat m e
  | .vinf true => ".inf"
  | .vinf false => "-.inf"
  | .vnan => ".nan"
  | .vbool true => "true"
  | .vbool false => "false"
  | .vnull => "null"
  | .vstr s => renderStr s

/-- Strip the single quotes of a quoted scalar. -/
def unquote (t : String) : String := String.mk ((t.data.drop 1).dropLast)

/-- Reloading one rendered scalar with the strict-bool loader. -/
def parseScalar (t : String) : Value :=
  if isQuoted t then .vstr (unquote t) else yamlLoadScalar t

/-- Reloading one rendered mapping key (quoted keys were strings). -/
def parseKeyScalar (t : String) : String :=
  if isQuoted t then unquote t else t

/-- `yaml.dump(self._privatedict, f)`: every key and value rendered. -/
def dumpPairs (s : Store) : List (String × String) :=
  s.map fun kv => (renderStr kv.1, renderValue kv.2)

/-- `yaml_load` on a dumped document. -/
def loadPairs (l : List (String × String)) : Store :=
  l.map fun kv => (parseKeyScalar kv.1, parseScalar kv.2)

/-- The float leaves the documented inference produces: mantissa/scale in
lowest decimal terms (`constructFloat` normalizes via `normFloat`). -/
def GoodVal : Value → Prop
  | .vfloat m e => e = 0 ∨ m % 10 ≠ 0
  | _ => True

instance : DecidablePred GoodVal := fun v =>
  match v with
  | .vint _ => .isTrue trivial
  | .vfloat m e => inferInstanceAs (Decidable (e = 0 ∨ m % 10 ≠ 0))
  | .vinf _ => .isTrue trivial
  | .vnan => .isTrue trivial
  | .vbool _ => .isTrue trivial
  | .vnull => .isTrue trivial
  | .vstr _ => .isTrue trivial

/-! ## Tier 4 of the final merge variant, modelled from the spec

The final variant of the merge engine — the one with the
`parse_args(..., argv = ...)` signature exercised by
`src/tests/test_argv_string.py` and the caller of `get_positional_keys` —
is not part of this snapshot (`src/hackerargs/args.py` holds the earlier
fused-loop variant).  Its lowest tier is modelled from the spec below. -/

/-- An entry of ParsedFlagResult: flag name, parsed value, and whether the
user explicitly passed the flag. -/
structure FlagResult where
  name : String
  value : Value
  userSpecified : Bool

/-- Modelled from the spec: tier 4 ("Declared-flag defaults (lowest)") of
the PriorityMergeEngine — "For every flag in ParsedFlagResult where
user_specified is false (parser supplied its own default) and the flag is
not a positional argument, write the value with set-if-absent."  The
positional-name set comes from `get_positional_keys`. -/
def tier4Defaults (store : Store) (results : List FlagResult) (positionals : List String) :
    Store :=
  results.foldl
    (fun s r =>
      if !r.userSpecified && !(positionals.contains r.name)
      then (setdefault s r.name r.value).1
      else s)
    store

/-- Is a value a boolean? -/
def isVBool : Value → Bool
  | .vbool _ => true
  | _ => false

/-! ## Basic store lemmas -/

theorem lookup_dictInsert_self (s : Store) (k : String) (v : Value) :
    lookupStore (dictInsert s k v) k = some v := by
  induction s with
  | nil => simp [dictInsert, lookupStore]
  | cons p rest ih =>
    by_cases h : p.1 = k <;> simp [dictInsert, lookupStore, h, ih]

theorem lookup_dictInsert_ne (s : Store) (k k' : String) (v : Value) (h : k' ≠ k) :
    lookupStore (dictInsert s k v) k' = lookupStore s k' := by
  induction s with
  | nil =>
    have hk : ¬ k = k' := fun he => h he.symm
    simp [dictInsert, lookupStore, hk]
  | cons p rest ih =>
    obtain ⟨k0, v0⟩ := p
    by_cases h1 : k0 = k
    · subst h1
      have h2 : ¬ k0 = k' := fun he => h he.symm
      simp [dictInsert, lookupStore, h2]
    · simp only [dictInsert, if_neg h1, lookupStore, ih]

theorem containsKey_dictInsert_of (s : Store) (k k' : String) (v : Value)
    (h : containsKey s k' = true) : containsKey (dictInsert s k v) k' = true := by
  by_cases hk : k' = k
  · subst hk; simp [containsKey, lookup_dictInsert_self]
  · simpa [containsKey, lookup_dictInsert_ne s k k' v hk] using h

theorem lookup_setdefault_ne (s : Store) (k k' : String) (v : Value) (h : k' ≠ k) :
    lookupStore (setdefault s k v).1 k' = lookupStore s k' := by
  unfold setdefault
  cases hl : lookupStore s k with
  | some w => rfl
  | none => simpa using lookup_dictInsert_ne s k k' v h

theorem contains_true_iff (l : List String) (a : String) : l.contains a = true ↔ a ∈ l := by
  induction l with
  | nil => simp
  | cons b r ih => simp [List.contains]

/-! ## Small list helpers for `parse_args` -/

theorem idxOf_append_of_not_mem (pre l2 : List String) (t : String) (h : t ∉ pre) :
    idxOf (pre ++ l2) t = pre.length + idxOf l2 t := by
  induction pre with
  | nil => simp
  | cons x r ih =>
    have hx : ¬ x = t := fun he => h (by simp [he])
    have hr : t ∉ r := fun hm => h (List.mem_cons_of_mem _ hm)
    simp [idxOf, hx, ih hr]
    omega

theorem nth_none_of_le (l : List String) (n : Nat) (h : l.length ≤ n) : nth l n = none := by
  induction l generalizing n with
  | nil => simp [nth]
  | cons x r ih =>
    cases n with
    | zero => simp at h
    | succ m => simpa [nth] using ih m (by simpa using h)

/-! ## Lemmas about the merge loops -/

theorem updateParsed_preserves (argv : List String) (ns : Store) :
    ∀ (s : Store) (key : String), noSpecB argv key = true → containsKey s key = true →
      lookupStore (updateParsed s argv ns) key = lookupStore s key := by
  induction ns with
  | nil => intro s key _ _; rfl
  | cons kv rest ih =>
    intro s key hns hck
    have hstep : lookupStore (updParsedStep argv s kv) key = lookupStore s key ∧
        containsKey (updParsedStep argv s kv) key = true := by
      by_cases hcond : (noSpecB argv kv.1 && containsKey s kv.1) = true
      · simp [updParsedStep, hcond, hck]
      · have hk : kv.1 ≠ key := by
          intro he
          rw [he, hns, hck] at hcond
          simp at hcond
        have hk2 : key ≠ kv.1 := fun he => hk he.symm
        cases hv : kv.2 <;>
          simp [updParsedStep, hcond, hv, lookup_dictInsert_ne _ _ _ _ hk2,
            containsKey_dictInsert_of _ _ _ _ hck, hck]
    rw [show updateParsed s argv (kv :: rest) = updateParsed (updParsedStep argv s kv) argv rest
        from rfl,
      ih (updParsedStep argv s kv) key hns hstep.2, hstep.1]

theorem mem_pkaGo_unknown (acts : List ArgAction) :
    ∀ (l : List String) (ns : Store) (unk : List String) (t : String),
      t ∈ (pkaGo acts l ns unk).2 → t ∈ l ∨ t ∈ unk
  | [], _, unk, t, h => Or.inr (by simpa [pkaGo] using h)
  | [t0], ns, unk, t, h => by
    rcases mem_pkaGo_unknown acts [] ns (t0 :: unk) t (by simpa [pkaGo] using h) with h2 | h2
    · simp at h2
    · rcases List.mem_cons.mp h2 with h3 | h3
      · exact Or.inl (by simp [h3])
      · exact Or.inr h3
  | t0 :: v :: rest2, ns, unk, t, h => by
    rw [pkaGo] at h
    cases hfa : findAction acts t0 with
    | some a =>
      simp only [hfa] at h
      rcases mem_pkaGo_unknown acts rest2 _ unk t h with h2 | h2
      · exact Or.inl (by simp [h2])
      · exact Or.inr h2
    | none =>
      simp only [hfa] at h
      rcases mem_pkaGo_unknown acts (v :: rest2) ns (t0 :: unk) t h with h2 | h2
      · exact Or.inl (by simpa using Or.inr h2)
      · rcases List.mem_cons.mp h2 with h3 | h3
        · exact Or.inl (by simp [h3])
        · exact Or.inr h3
termination_by l _ _ _ _ => l.length

theorem mem_toPairs : ∀ (l : List String) (p : String × String),
    p ∈ toPairs l → p.1 ∈ l ∧ p.2 ∈ l
  | a :: b :: rest, p, h => by
    rcases List.mem_cons.mp (by simpa [toPairs] using h) with h2 | h2
    · subst h2; simp
    · have := mem_toPairs rest p h2
      exact ⟨by simp [this.1], by simp [this.2]⟩

theorem eq_append_of_startsDashDash (k : String) (h : startsDashDash k = true) :
    k = "--" ++ trim2 k := by
  have hdata : k.data = ['-', '-'] ++ k.data.drop 2 := by
    conv_lhs => rw [← List.take_append_drop 2 k.data]
    rw [show k.data.take 2 = ['-', '-'] from by simpa [startsDashDash] using h]
  apply String.ext
  simpa [trim2] using hdata

theorem updUnknownGo_preserves (key : String) :
    ∀ (ps : List (String × String)) (s : Store) (seen : List String) (res : Store),
      updUnknownGo s seen ps = .ok res → (∀ p ∈ ps, p.1 ≠ "--" ++ key) →
      lookupStore res key = lookupStore s key := by
  intro ps
  induction ps with
  | nil =>
    intro s seen res h _
    simp [updUnknownGo] at h
    rw [h]
  | cons p rest ih =>
    intro s seen res h hne
    obtain ⟨k, v⟩ := p
    by_cases hdd : startsDashDash k = true
    · by_cases hseen : seen.contains k = true
      · rw [updUnknownGo, if_neg (by simp [hdd]), if_pos hseen] at h
        simp at h
      · rw [updUnknownGo, if_neg (by simp [hdd]), if_neg hseen] at h
        have htr : trim2 k ≠ key := by
          intro he
          exact hne (k, v) (by simp) (by rw [eq_append_of_startsDashDash k hdd, he])
        rw [ih _ _ _ h fun p hp => hne p (by simp [hp]),
          lookup_dictInsert_ne _ _ _ _ fun he => htr he.symm]
    · simp [updUnknownGo, hdd] at h

theorem updateUnknown_preserves (s : Store) (unknown : List String) (res : Store)
    (key : String) (h : updateUnknown s unknown = .ok res)
    (hmem : ("--" ++ key) ∉ unknown) :
    lookupStore res key = lookupStore s key := by
  unfold updateUnknown at h
  by_cases hlen : unknown.length % 2 ≠ 0
  · simp [hlen] at h
  · rw [if_neg hlen] at h
    exact updUnknownGo_preserves key (toPairs unknown) s [] res h
      fun p hp he => hmem (he ▸ (mem_toPairs unknown p hp).1)

/-- Is the outcome an error? -/
def isErr : Except Err Store → Bool
  | .error _ => true
  | .ok _ => false

theorem updUnknownGo_err_iff :
    ∀ (ps : List (String × String)) (s : Store) (seen : List String), seen.Nodup →
      (isErr (updUnknownGo s seen ps) = true ↔
        (∃ p ∈ ps, startsDashDash p.1 = false) ∨ ¬ (seen ++ ps.map Prod.fst).Nodup) := by
  intro ps
  induction ps with
  | nil =>
    intro s seen hnd
    simp [updUnknownGo, isErr, hnd]
  | cons p rest ih =>
    intro s seen hnd
    obtain ⟨k, v⟩ := p
    by_cases hdd : startsDashDash k = true
    · by_cases hseen : k ∈ seen
      · rw [updUnknownGo, if_neg (by simp [hdd]),
          if_pos ((contains_true_iff _ _).mpr hseen)]
        simp only [isErr, true_iff]
        refine Or.inr fun hnod => ?_
        exact List.disjoint_of_nodup_append hnod hseen (by simp)
      · rw [updUnknownGo, if_neg (by simp [hdd]),
          if_neg (fun hc => hseen ((contains_true_iff _ _).mp hc))]
        rw [ih _ (k :: seen) (List.nodup_cons.mpr ⟨hseen, hnd⟩)]
        constructor
        · rintro (hbad | hnod)
          · exact Or.inl (by obtain ⟨q, hq1, hq2⟩ := hbad; exact ⟨q, by simp [hq1], hq2⟩)
          · refine Or.inr fun hnod2 => hnod ?_
            have hperm : (seen ++ k :: rest.map Prod.fst).Perm
                (k :: (seen ++ rest.map Prod.fst)) := List.perm_middle
            simpa using hperm.nodup_iff.mp (by simpa using hnod2)
        · rintro (hbad | hnod)
          · obtain ⟨q, hq1, hq2⟩ := hbad
            rcases List.mem_cons.mp hq1 with hq3 | hq3
            · rw [hq3] at hq2; simp at hq2; rw [hq2] at hdd; simp at hdd
            · exact Or.inl ⟨q, hq3, hq2⟩
          · refine Or.inr fun hnod2 => hnod ?_
            have hperm : (seen ++ k :: rest.map Prod.fst).Perm
                (k :: (seen ++ rest.map Prod.fst)) := List.perm_middle
            simpa using hperm.nodup_iff.mpr (by simpa using hnod2)
    · rw [updUnknownGo, if_pos (by simpa using hdd)]
      simp only [isErr, true_iff]
      exact Or.inl ⟨(k, v), by simp, by simpa using hdd⟩

theorem updUnknownGo_ok_not_seen :
    ∀ (ps : List (String × String)) (s : Store) (seen : List String) (res : Store),
      updUnknownGo s seen ps = .ok res → ∀ p ∈ ps, p.1 ∉ seen := by
  intro ps
  induction ps with
  | nil => intro s seen res _ p hp; simp at hp
  | cons q rest ih =>
    intro s seen res h p hp
    obtain ⟨k, v⟩ := q
    by_cases hdd : startsDashDash k = true
    · by_cases hseen : seen.contains k = true
      · rw [updUnknownGo, if_neg (by simp [hdd]), if_pos hseen] at h
        simp at h
      · rw [updUnknownGo, if_neg (by simp [hdd]), if_neg hseen] at h
        rcases List.mem_cons.mp hp with hp2 | hp2
        · rw [hp2]
          exact fun hm => hseen ((contains_true_iff _ _).mpr hm)
        · exact fun hm => ih _ _ _ h p hp2 (by simp [hm])
    · simp [updUnknownGo, hdd] at h

theorem updUnknownGo_ok_contents :
    ∀ (ps : List (String × String)) (s : Store) (seen : List String) (res : Store),
      updUnknownGo s seen ps = .ok res →
      ∀ p ∈ ps, lookupStore res (trim2 p.1) = some (yamlLoadScalar p.2) := by
  intro ps
  induction ps with
  | nil => intro s seen res _ p hp; simp at hp
  | cons q rest ih =>
    intro s seen res h p hp
    obtain ⟨k, v⟩ := q
    by_cases hdd : startsDashDash k = true
    · by_cases hseen : seen.contains k = true
      · rw [updUnknownGo, if_neg (by simp [hdd]), if_pos hseen] at h
        simp at h
      · rw [updUnknownGo, if_neg (by simp [hdd]), if_neg hseen] at h
        rcases List.mem_cons.mp hp with hp2 | hp2
        · rw [hp2]
          have hrest : ∀ q2 ∈ rest, q2.1 ≠ "--" ++ trim2 k := by
            intro q2 hq2 heq
            have hnotin := updUnknownGo_ok_not_seen rest _ _ _ h q2 hq2
            rw [heq, ← eq_append_of_startsDashDash k hdd] at hnotin
            exact hnotin (by simp)
          rw [updUnknownGo_preserves (trim2 k) rest _ _ _ h hrest,
            lookup_dictInsert_self]
        · exact ih _ _ _ h p hp2
    · simp [updUnknownGo, hdd] at h

/-! ## Decimal digit printing and parsing -/

theorem digVal_digitChar : ∀ d, d < 10 → digVal (Nat.digitChar d) = d := by decide

theorem isDig_digitChar : ∀ d, d < 10 → isDig (Nat.digitChar d) = true := by decide

theorem isDig19_digitChar : ∀ d, d < 10 → d ≠ 0 → isDig19 (Nat.digitChar d) = true := by
  decide

theorem toLower_digitChar : ∀ d, d < 10 → Char.toLower (Nat.digitChar d) = Nat.digitChar d := by
  decide

theorem ne_of_isDig (c : Char) (h : isDig c = true) (c2 : Char) (h2 : isDig c2 = false) :
    c ≠ c2 := by
  intro he
  rw [he, h2] at h
  cases h

theorem isDigU_of_isDig (c : Char) (h : isDig c = true) : isDigU c = true := by
  simp [isDigU, h]

theorem foldl_parse_rev (ds : List Nat) (h : ∀ d ∈ ds, d < 10) (acc : Nat) :
    List.foldl (fun a c => a * 10 + digVal c) acc ((ds.map Nat.digitChar).reverse)
      = acc * 10 ^ ds.length + Nat.ofDigits 10 ds := by
  induction ds generalizing acc with
  | nil => simp [Nat.ofDigits]
  | cons d tl ih =>
    rw [List.map_cons, List.reverse_cons, List.foldl_append,
      ih (fun x hx => h x (by simp [hx]))]
    simp only [List.foldl_cons, List.foldl_nil]
    rw [Nat.ofDigits_cons, digVal_digitChar d (h d (by simp)), List.length_cons, pow_succ]
    ring

theorem natToChars_all_dig (n : Nat) : ∀ c ∈ natToChars n, isDig c = true := by
  unfold natToChars
  split
  · intro c hc
    rw [List.mem_singleton.mp hc]
    decide
  · intro c hc
    rw [List.mem_reverse, List.mem_map] at hc
    obtain ⟨d, hd, rfl⟩ := hc
    exact isDig_digitChar d (Nat.digits_lt_base (by norm_num) hd)

theorem natToChars_ne_nil (n : Nat) : natToChars n ≠ [] := by
  unfold natToChars
  split
  · simp
  · simp [Nat.digits_ne_nil_iff_ne_zero.mpr (by assumption)]

theorem parse_natToChars (n : Nat) : parseDigitsB 10 (natToChars n) = n := by
  unfold natToChars
  split
  · subst n
    decide
  · unfold parseDigitsB
    rw [foldl_parse_rev (Nat.digits 10 n)
        (fun d hd => Nat.digits_lt_base (by norm_num) hd) 0,
      Nat.ofDigits_digits]
    simp

theorem natToChars_head_dig19 (n : Nat) (hn : n ≠ 0) (c : Char) (cs : List Char)
    (h : natToChars n = c :: cs) : isDig19 c = true := by
  unfold natToChars at h
  rw [if_neg hn] at h
  have hne : Nat.digits 10 n ≠ [] := Nat.digits_ne_nil_iff_ne_zero.mpr hn
  have hsplit := List.dropLast_append_getLast hne
  have hmap : (Nat.digits 10 n).map Nat.digitChar
      = ((Nat.digits 10 n).dropLast).map Nat.digitChar
        ++ [Nat.digitChar ((Nat.digits 10 n).getLast hne)] := by
    conv_lhs => rw [← hsplit]
    simp
  rw [hmap, List.reverse_append] at h
  simp only [List.reverse_cons, List.reverse_nil, List.nil_append, List.cons_append,
    List.cons.injEq] at h
  have hlast : (Nat.digits 10 n).getLast hne ∈ Nat.digits 10 n := List.getLast_mem hne
  rw [← h.1]
  exact isDig19_digitChar _ (Nat.digits_lt_base (by norm_num) hlast)
    (Nat.getLast_digit_ne_zero 10 hn)

theorem natToChars_len_le (m e : Nat) (h : m < 10 ^ e) (he : 0 < e) :
    (natToChars m).length ≤ e := by
  unfold natToChars
  split
  · simpa using he
  · rw [List.length_reverse, List.length_map]
    by_contra hlen
    push_neg at hlen
    have h1 : 10 ^ (Nat.digits 10 m).length ≤ 10 * m :=
      Nat.base_pow_length_digits_le 10 m (by norm_num) (by assumption)
    have h2 : 10 ^ (e + 1) ≤ 10 ^ (Nat.digits 10 m).length :=
      Nat.pow_le_pow_right (by norm_num) hlen
    rw [pow_succ] at h2
    have h3 : 10 ^ e * 10 ≤ 10 * m := le_trans h2 h1
    omega

theorem parse_replicate_zero (k : Nat) (l : List Char) :
    parseDigitsB 10 (List.replicate k '0' ++ l) = parseDigitsB 10 l := by
  induction k with
  | zero => simp
  | succ k2 ih =>
    rw [List.replicate_succ, List.cons_append]
    show parseDigitsB 10 (List.replicate k2 '0' ++ l) = _
    exact ih

/-! ## List run helpers -/

theorem takeWhile_append_all {p : Char → Bool} (A B : List Char)
    (hA : ∀ a ∈ A, p a = true) : (A ++ B).takeWhile p = A ++ B.takeWhile p := by
  induction A with
  | nil => simp
  | cons a rest ih =>
    rw [List.cons_append, List.takeWhile_cons, if_pos (hA a (by simp))]
    rw [ih (fun x hx => hA x (by simp [hx]))]
    rfl

theorem dropWhile_append_all {p : Char → Bool} (A B : List Char)
    (hA : ∀ a ∈ A, p a = true) : (A ++ B).dropWhile p = B.dropWhile p := by
  induction A with
  | nil => simp
  | cons a rest ih =>
    rw [List.cons_append, List.dropWhile_cons, if_pos (hA a (by simp))]
    exact ih (fun x hx => hA x (by simp [hx]))

theorem takeWhile_all {p : Char → Bool} (A : List Char) (hA : ∀ a ∈ A, p a = true) :
    A.takeWhile p = A := by
  have := takeWhile_append_all A [] hA
  simpa using this

theorem dropWhile_all {p : Char → Bool} (A : List Char) (hA : ∀ a ∈ A, p a = true) :
    A.dropWhile p = [] := by
  have := dropWhile_append_all A [] hA
  simpa using this

/-! ## Integer scalars round-trip -/

theorem intBody_digits (c : Char) (cs : List Char) (hc : isDig19 c = true)
    (hcs : ∀ a ∈ cs, isDig a = true) : intBody (c :: cs) = true := by
  have hc0 : c ≠ '0' := by
    intro he
    rw [he] at hc
    exact absurd hc (by decide)
  have h1 : ¬ ((c :: cs).take 2 = ['0', 'b']) := by
    intro h
    simp only [List.take_succ_cons, List.cons.injEq] at h
    exact hc0 h.1
  have h2 : ¬ ((c :: cs).take 2 = ['0', 'x']) := by
    intro h
    simp only [List.take_succ_cons, List.cons.injEq] at h
    exact hc0 h.1
  have h3 : ¬ (c :: cs = ['0']) := by
    intro h
    simp only [List.cons.injEq] at h
    exact hc0 h.1
  have h4 : ¬ ((c :: cs).take 1 = ['0']) := by
    intro h
    simp only [List.take_succ_cons, List.take_zero, List.cons.injEq] at h
    exact hc0 h.1
  unfold intBody
  rw [if_neg h1, if_neg h2, if_neg h3, if_neg h4]
  simp only [hc, Bool.true_and, List.all_eq_true]
  intro a ha
  exact isDigU_of_isDig a (hcs a ha)

theorem intBody_natToChars (m : Nat) : intBody (natToChars m) = true := by
  by_cases hm : m = 0
  · subst hm
    decide
  · obtain ⟨c, cs, hcons⟩ := List.exists_cons_of_ne_nil (natToChars_ne_nil m)
    have hc19 := natToChars_head_dig19 m hm c cs hcons
    have hcs : ∀ a ∈ cs, isDig a = true := fun a ha =>
      natToChars_all_dig m a (by rw [hcons]; simp [ha])
    rw [hcons]
    exact intBody_digits c cs hc19 hcs

theorem stripSign1_all_dig (l : List Char) (h : ∀ a ∈ l, isDig a = true) :
    stripSign1 l = l := by
  cases l with
  | nil => rfl
  | cons c cs =>
    have hc := h c (by simp)
    have hminus : c ≠ '-' := ne_of_isDig c hc '-' (by decide)
    have hplus : c ≠ '+' := ne_of_isDig c hc '+' (by decide)
    unfold stripSign1
    rw [if_neg]
    intro hor
    simp only [List.take_succ_cons, List.take_zero, Bool.or_eq_true, decide_eq_true_eq,
      List.cons.injEq, and_true] at hor
    rcases hor with h2 | h2
    · exact hminus h2
    · exact hplus h2

theorem stripSign1_cons_neg (l : List Char) : stripSign1 ('-' :: l) = l := by
  simp [stripSign1]

theorem floatBody1_all_dig (l : List Char) (h : ∀ a ∈ l, isDig a = true) :
    floatBody1 l = false := by
  cases l with
  | nil => rfl
  | cons c cs =>
    simp only [floatBody1]
    rw [dropWhile_all cs (fun a ha => isDigU_of_isDig a (h a (by simp [ha])))]
    simp

theorem floatBody2_cons_ne_dot (c : Char) (l : List Char) (hc : c ≠ '.') :
    floatBody2 (c :: l) = false := by
  unfold floatBody2
  rw [if_neg]
  simp only [List.take_succ_cons, List.take_zero, List.cons.injEq]
  intro h2
  exact hc h2.1

theorem floatBody2_nil : floatBody2 [] = false := rfl

theorem floatMatch_all_dig (s : String) (h : ∀ a ∈ s.data, isDig a = true) :
    floatMatch s = false := by
  have hdot : ∀ (A : List Char), s.data = A → '.' ∈ A → False := by
    intro A hA hm
    have := h '.' (by rw [hA]; exact hm)
    exact absurd this (by decide)
  have h1 : s.data ∉ [".inf".data, ".Inf".data, ".INF".data] := by
    intro hm
    simp only [List.mem_cons] at hm
    rcases hm with h2 | h2 | h2 | h2 <;> first | exact hdot _ h2 (by decide) | simp at h2
  have h2 : s.data ∉ [".nan".data, ".NaN".data, ".NAN".data] := by
    intro hm
    simp only [List.mem_cons] at hm
    rcases hm with h2 | h2 | h2 | h2 <;> first | exact hdot _ h2 (by decide) | simp at h2
  have hb2 : floatBody2 s.data = false := by
    cases hd : s.data with
    | nil => rfl
    | cons c cs =>
      have hc := h c (by rw [hd]; simp)
      exact floatBody2_cons_ne_dot c cs (ne_of_isDig c hc '.' (by decide))
  unfold floatMatch
  rw [stripSign1_all_dig _ h, floatBody1_all_dig _ h, hb2]
  simp [h1, h2]

theorem resolversFor_digit (st : Bool) (c : Char) (h : isDig c = true) :
    resolversFor st c = [.tfloat, .tint] := by
  unfold resolversFor
  rw [if_neg (by rintro (rfl | rfl | rfl | rfl) <;> exact absurd h (by decide)),
    if_neg (by rintro (rfl | rfl) <;> exact absurd h (by decide)),
    if_neg (by rintro (rfl | rfl | rfl | rfl) <;> exact absurd h (by decide)),
    if_neg (by rintro (rfl | rfl | rfl) <;> exact absurd h (by decide)),
    if_pos h]

theorem resolveTag_eq (strict : Bool) (s : String) (c : Char) (cs : List Char)
    (hd : s.data = c :: cs) :
    resolveTag strict s = ((resolversFor strict c).find? fun t => regexMatch t s).getD .tstr := by
  unfold resolveTag
  rw [hd]


theorem filter_underscore_of_dig (l : List Char) (h : ∀ a ∈ l, isDig a = true) :
    l.filter (fun c => c ≠ '_') = l := by
  rw [List.filter_eq_self]
  intro a ha
  simp only [ne_eq, decide_not, Bool.not_eq_true', decide_eq_false_iff_not]
  exact ne_of_isDig a (h a ha) '_' (by decide)

theorem constructIntCore_natToChars (m : Nat) : constructIntCore (natToChars m) = m := by
  by_cases hm : m = 0
  · subst hm
    decide
  · obtain ⟨c, cs, hcons⟩ := List.exists_cons_of_ne_nil (natToChars_ne_nil m)
    have hc19 := natToChars_head_dig19 m hm c cs hcons
    have hc0 : c ≠ '0' := by
      intro he
      rw [he] at hc19
      exact absurd hc19 (by decide)
    rw [hcons]
    unfold constructIntCore
    rw [if_neg, if_neg, if_neg]
    · rw [← hcons, parse_natToChars]
    · intro h2
      simp only [Bool.and_eq_true, decide_eq_true_eq] at h2
      obtain ⟨h3, _⟩ := h2
      simp only [List.take_succ_cons, List.take_zero, List.cons.injEq, and_true] at h3
      exact hc0 h3
    · intro h2
      simp only [List.take_succ_cons, List.cons.injEq] at h2
      exact hc0 h2.1
    · intro h2
      simp only [List.take_succ_cons, List.cons.injEq] at h2
      exact hc0 h2.1

theorem yamlLoadScalar_natStr (m : Nat) :
    yamlLoadScalar (String.mk (natToChars m)) = .vint m := by
  have hdata : (String.mk (natToChars m)).data = natToChars m := rfl
  have hall : ∀ a ∈ natToChars m, isDig a = true := natToChars_all_dig m
  have hint : intMatch (String.mk (natToChars m)) = true := by
    unfold intMatch
    rw [hdata, stripSign1_all_dig _ hall]
    exact intBody_natToChars m
  have hflo : floatMatch (String.mk (natToChars m)) = false := floatMatch_all_dig _ hall
  obtain ⟨c, cs, hcons⟩ := List.exists_cons_of_ne_nil (natToChars_ne_nil m)
  have hres : resolveTag true (String.mk (natToChars m)) = .tint := by
    rw [resolveTag_eq true _ c cs (hdata.trans hcons),
      resolversFor_digit true c (hall c (by rw [hcons]; simp))]
    simp [List.find?, regexMatch, hflo, hint]
  have hcon : constructInt (String.mk (natToChars m)) = (m : Int) := by
    unfold constructInt
    simp only [hdata]
    rw [filter_underscore_of_dig _ hall]
    have hc := hall c (by rw [hcons]; simp)
    rw [if_neg, if_neg]
    · rw [constructIntCore_natToChars]
    · rw [hcons]
      intro h2
      simp only [List.take_succ_cons, List.take_zero, List.cons.injEq, and_true] at h2
      exact ne_of_isDig c hc '+' (by decide) h2
    · rw [hcons]
      intro h2
      simp only [List.take_succ_cons, List.take_zero, List.cons.injEq, and_true] at h2
      exact ne_of_isDig c hc '-' (by decide) h2
  unfold yamlLoadScalar
  rw [hres, hcon]

theorem yamlLoadScalar_negNatStr (m : Nat) :
    yamlLoadScalar (String.mk ('-' :: natToChars m)) = .vint (-(m : Int)) := by
  have hdata : (String.mk ('-' :: natToChars m)).data = '-' :: natToChars m := rfl
  have hall : ∀ a ∈ natToChars m, isDig a = true := natToChars_all_dig m
  have hint : intMatch (String.mk ('-' :: natToChars m)) = true := by
    unfold intMatch
    rw [hdata, stripSign1_cons_neg]
    exact intBody_natToChars m
  have hflo : floatMatch (String.mk ('-' :: natToChars m)) = false := by
    have hdot : ∀ (A : List Char), natToChars m = A → '.' ∈ A → False := by
      intro A hA hmem
      have := hall '.' (by rw [hA]; exact hmem)
      exact absurd this (by decide)
    unfold floatMatch
    rw [hdata, stripSign1_cons_neg, floatBody1_all_dig _ hall,
      floatBody2_cons_ne_dot '-' _ (by decide)]
    have h1 : natToChars m ∉ [".inf".data, ".Inf".data, ".INF".data] := by
      intro hmem
      simp only [List.mem_cons] at hmem
      rcases hmem with h2 | h2 | h2 | h2 <;> first | exact hdot _ h2 (by decide) | simp at h2
    have h2 : ('-' :: natToChars m) ∉ [".nan".data, ".NaN".data, ".NAN".data] := by
      intro hmem
      simp only [List.mem_cons] at hmem
      rcases hmem with h3 | h3 | h3 | h3 <;>
        first | (simp only [List.cons.injEq] at h3; exact absurd h3.1 (by decide)) | simp at h3
    simp [h1, h2]
  have hres : resolveTag true (String.mk ('-' :: natToChars m)) = .tint := by
    rw [resolveTag_eq true _ '-' (natToChars m) hdata]
    have : resolversFor true '-' = [.tfloat, .tint] := by decide
    rw [this]
    simp [List.find?, regexMatch, hflo, hint]
  have hcon : constructInt (String.mk ('-' :: natToChars m)) = -(m : Int) := by
    unfold constructInt
    simp only [hdata]
    have hfil : ('-' :: natToChars m).filter (fun c => c ≠ '_') = '-' :: natToChars m := by
      rw [List.filter_eq_self]
      intro a ha
      simp only [ne_eq, decide_not, Bool.not_eq_true', decide_eq_false_iff_not]
      rcases List.mem_cons.mp ha with h2 | h2
      · rw [h2]; decide
      · exact ne_of_isDig a (hall a h2) '_' (by decide)
    rw [hfil]
    rw [if_pos (by simp)]
    show -(constructIntCore ((('-' :: natToChars m)).drop 1) : Int) = _
    simp only [List.drop_succ_cons, List.drop_zero]
    rw [constructIntCore_natToChars]
  unfold yamlLoadScalar
  rw [hres, hcon]

theorem isQuoted_mk_cons (c : Char) (l : List Char) :
    isQuoted (String.mk (c :: l)) = decide (c = Char.ofNat 39) := rfl

theorem parseScalar_renderInt (n : Int) : parseScalar (renderInt n) = .vint n := by
  by_cases hn : n < 0
  · unfold renderInt parseScalar
    rw [if_pos hn]
    have hq : isQuoted (String.mk ('-' :: natToChars n.natAbs)) = false := rfl
    rw [if_neg (by rw [hq]; simp), yamlLoadScalar_negNatStr n.natAbs]
    congr 1
    omega
  · unfold renderInt parseScalar
    rw [if_neg hn]
    obtain ⟨c, cs, hcons⟩ := List.exists_cons_of_ne_nil (natToChars_ne_nil n.natAbs)
    have hc := natToChars_all_dig n.natAbs c (by rw [hcons]; simp)
    have hq : isQuoted (String.mk (natToChars n.natAbs)) = false := by
      rw [hcons, isQuoted_mk_cons, decide_eq_false_iff_not]
      exact ne_of_isDig c hc (Char.ofNat 39) (by decide)
    rw [if_neg (by rw [hq]; simp), yamlLoadScalar_natStr]
    congr 1
    omega


/-! ## Float scalars round-trip -/

theorem toLower_of_isDig (c : Char) (h : isDig c = true) : Char.toLower c = c := by
  simp only [isDig, Bool.and_eq_true, decide_eq_true_eq] at h
  unfold Char.toLower
  rw [if_neg]
  omega

theorem stripSign1_cons_of_ne (c : Char) (l : List Char) (h1 : c ≠ '-') (h2 : c ≠ '+') :
    stripSign1 (c :: l) = c :: l := by
  unfold stripSign1
  rw [if_neg]
  intro hor
  simp only [List.take_succ_cons, List.take_zero, Bool.or_eq_true, decide_eq_true_eq,
    List.cons.injEq, and_true] at hor
  rcases hor with h3 | h3
  · exact h1 h3
  · exact h2 h3

/-- The unsigned body of a rendered float. -/
def floatBodyChars (n : Nat) (e : Nat) : List Char :=
  natToChars (n / 10 ^ e) ++ '.' ::
    (List.replicate (e - (natToChars (n % 10 ^ e)).length) '0' ++ natToChars (n % 10 ^ e))

theorem renderFloat_data (m : Int) (e : Nat) :
    (renderFloat m e).data
      = (if m < 0 then ['-'] else []) ++ floatBodyChars m.natAbs e := by
  unfold renderFloat floatBodyChars
  simp [List.append_assoc]

theorem fracChars_all_dig (n e : Nat) :
    ∀ a ∈ List.replicate (e - (natToChars (n % 10 ^ e)).length) '0'
        ++ natToChars (n % 10 ^ e), isDig a = true := by
  intro a ha
  rcases List.mem_append.mp ha with h2 | h2
  · rw [List.eq_of_mem_replicate h2]
    decide
  · exact natToChars_all_dig _ a h2

theorem floatBody1_digits_dot (c : Char) (cs frac : List Char) (hc : isDig c = true)
    (hcs : ∀ a ∈ cs, isDig a = true) (hfrac : ∀ a ∈ frac, isDig a = true) :
    floatBody1 (c :: (cs ++ '.' :: frac)) = true := by
  simp only [floatBody1]
  have h1 : (cs ++ '.' :: frac).dropWhile isDigU = '.' :: frac := by
    rw [dropWhile_append_all cs ('.' :: frac) (fun a ha => isDigU_of_isDig a (hcs a ha)),
      List.dropWhile_cons, if_neg (by decide)]
  rw [h1]
  have h2 : ('.' :: frac).take 1 = ['.'] := rfl
  rw [h2, if_pos rfl]
  have h3 : ('.' :: frac).drop 1 = frac := rfl
  rw [h3, dropWhile_all frac (fun a ha => isDigU_of_isDig a (hfrac a ha))]
  simp [expOk, hc]

theorem floatBody1_floatBodyChars (n e : Nat) :
    floatBody1 (floatBodyChars n e) = true := by
  obtain ⟨c, cs, hcons⟩ := List.exists_cons_of_ne_nil (natToChars_ne_nil (n / 10 ^ e))
  unfold floatBodyChars
  rw [hcons, List.cons_append]
  exact floatBody1_digits_dot c cs _
    (natToChars_all_dig _ c (by rw [hcons]; simp))
    (fun a ha => natToChars_all_dig (n / 10 ^ e) a (by rw [hcons]; simp [ha]))
    (fracChars_all_dig n e)

theorem floatBodyChars_head (n e : Nat) :
    ∃ c cs, floatBodyChars n e = c :: cs ∧ isDig c = true := by
  obtain ⟨c, cs, hcons⟩ := List.exists_cons_of_ne_nil (natToChars_ne_nil (n / 10 ^ e))
  refine ⟨c, cs ++ '.' ::
      (List.replicate (e - (natToChars (n % 10 ^ e)).length) '0' ++ natToChars (n % 10 ^ e)),
    ?_, natToChars_all_dig _ c (by rw [hcons]; simp)⟩
  unfold floatBodyChars
  rw [hcons, List.cons_append]

theorem stripSign1_renderFloat (m : Int) (e : Nat) :
    stripSign1 (renderFloat m e).data = floatBodyChars m.natAbs e := by
  obtain ⟨c, cs, hcons, hc⟩ := floatBodyChars_head m.natAbs e
  rw [renderFloat_data]
  by_cases hm : m < 0
  · rw [if_pos hm, List.singleton_append, stripSign1_cons_neg]
  · rw [if_neg hm, List.nil_append, hcons,
      stripSign1_cons_of_ne c cs (ne_of_isDig c hc '-' (by decide))
        (ne_of_isDig c hc '+' (by decide)), ← hcons]

theorem floatMatch_renderFloat (m : Int) (e : Nat) :
    floatMatch (renderFloat m e) = true := by
  unfold floatMatch
  rw [stripSign1_renderFloat, floatBody1_floatBodyChars]
  simp


theorem map_id_of {α : Type} (f : α → α) (l : List α) (h : ∀ a ∈ l, f a = a) :
    l.map f = l := by
  induction l with
  | nil => rfl
  | cons a rest ih =>
    rw [List.map_cons, h a (by simp), ih (fun x hx => h x (by simp [hx]))]

theorem normFloat_mul10 (m : Int) (e : Nat) : normFloat (m * 10) (e + 1) = normFloat m e := by
  conv_lhs => unfold normFloat
  rw [if_pos (Int.mul_emod_left m 10), Int.mul_ediv_cancel m (by norm_num)]

theorem normFloat_of_ndvd (m : Int) (e2 : Nat) (h : m % 10 ≠ 0) :
    normFloat m (e2 + 1) = .vfloat m (e2 + 1) := by
  unfold normFloat
  rw [if_neg h]

theorem mkFloatE_zero (m : Int) (e : Nat) : mkFloatE m e 0 = normFloat m e := by
  unfold mkFloatE
  rw [if_pos (le_refl 0)]
  norm_num

theorem fracChars_len_pos (n e : Nat) (he : 0 < e) :
    (List.replicate (e - (natToChars (n % 10 ^ e)).length) '0'
      ++ natToChars (n % 10 ^ e)).length = e := by
  have hlt : n % 10 ^ e < 10 ^ e := Nat.mod_lt n (Nat.pos_pow_of_pos e (by norm_num))
  have hle := natToChars_len_le (n % 10 ^ e) e hlt he
  rw [List.length_append, List.length_replicate]
  omega

theorem fracChars_zero (n : Nat) :
    List.replicate (0 - (natToChars (n % 10 ^ 0)).length) '0' ++ natToChars (n % 10 ^ 0)
      = ['0'] := by
  rw [pow_zero, Nat.mod_one]
  rfl

theorem parse_fracChars (n e : Nat) :
    parseDigitsB 10 (List.replicate (e - (natToChars (n % 10 ^ e)).length) '0'
      ++ natToChars (n % 10 ^ e)) = n % 10 ^ e := by
  rw [parse_replicate_zero, parse_natToChars]


theorem constructFloat_shape (s : String) (neg : Bool) (ip frac : List Char)
    (hdata : s.data = (if neg then ['-'] else []) ++ (ip ++ '.' :: frac))
    (hip : ∀ a ∈ ip, isDig a = true) (hipne : ip ≠ [])
    (hfr : ∀ a ∈ frac, isDig a = true) :
    constructFloat s
      = mkFloatE
          (if neg
           then -(((parseDigitsB 10 ip * 10 ^ frac.length + parseDigitsB 10 frac : Nat) : Int))
           else ((parseDigitsB 10 ip * 10 ^ frac.length + parseDigitsB 10 frac : Nat) : Int))
          frac.length 0 := by
  obtain ⟨c, cs, hic⟩ := List.exists_cons_of_ne_nil hipne
  have hc : isDig c = true := hip c (by rw [hic]; simp)
  have hbodymem : ∀ a ∈ ip ++ '.' :: frac, isDig a = true ∨ a = '.' := by
    intro a ha
    rcases List.mem_append.mp ha with h2 | h2
    · exact Or.inl (hip a h2)
    · rcases List.mem_cons.mp h2 with h3 | h3
      · exact Or.inr h3
      · exact Or.inl (hfr a h3)
  have hdmem : ∀ a ∈ s.data, isDig a = true ∨ a = '.' ∨ a = '-' := by
    intro a ha
    rw [hdata] at ha
    rcases List.mem_append.mp ha with h2 | h2
    · cases neg
      · simp at h2
      · right; right; simpa using h2
    · rcases hbodymem a h2 with h3 | h3
      · exact Or.inl h3
      · exact Or.inr (Or.inl h3)
  have hfil : s.data.filter (fun c => c ≠ '_') = s.data := by
    rw [List.filter_eq_self]
    intro a ha
    simp only [ne_eq, decide_not, Bool.not_eq_true', decide_eq_false_iff_not]
    rcases hdmem a ha with h2 | h2 | h2
    · exact ne_of_isDig a h2 '_' (by decide)
    · rw [h2]; decide
    · rw [h2]; decide
  have hmap : s.data.map Char.toLower = s.data := by
    apply map_id_of
    intro a ha
    rcases hdmem a ha with h2 | h2 | h2
    · exact toLower_of_isDig a h2
    · rw [h2]; decide
    · rw [h2]; decide
  have hl : (s.data.filter (fun c => c ≠ '_')).map Char.toLower = s.data := by
    rw [hfil, hmap]
  have hbody_tw : (ip ++ '.' :: frac).takeWhile (fun c => decide (c ≠ '.')) = ip := by
    rw [takeWhile_append_all ip ('.' :: frac)
        (fun a ha => decide_eq_true (ne_of_isDig a (hip a ha) '.' (by decide))),
      List.takeWhile_cons, if_neg (by decide), List.append_nil]
  have hbody_dw : (ip ++ '.' :: frac).dropWhile (fun c => decide (c ≠ '.')) = '.' :: frac := by
    rw [dropWhile_append_all ip ('.' :: frac)
        (fun a ha => decide_eq_true (ne_of_isDig a (hip a ha) '.' (by decide))),
      List.dropWhile_cons, if_neg (by decide)]
  have hfr_tw : frac.takeWhile isDig = frac := takeWhile_all frac hfr
  have hfr_dw : frac.dropWhile isDig = [] := dropWhile_all frac hfr
  have hb_ne_inf : ¬ (ip ++ '.' :: frac = ".inf".data) := by
    rw [hic]
    intro h2
    simp only [List.cons_append, List.cons.injEq] at h2
    exact ne_of_isDig c hc '.' (by decide) h2.1
  have hb_ne_nan : ¬ (ip ++ '.' :: frac = ".nan".data) := by
    rw [hic]
    intro h2
    simp only [List.cons_append, List.cons.injEq] at h2
    exact ne_of_isDig c hc '.' (by decide) h2.1
  simp only [constructFloat]
  rw [hl, hdata]
  cases neg
  · simp only [Bool.false_eq_true, if_false, List.nil_append]
    have htk : (ip ++ '.' :: frac).take 1 = [c] := by
      rw [hic, List.cons_append, List.take_succ_cons, List.take_zero]
    have hcnd : ¬ (((ip ++ '.' :: frac).take 1 = ['-']
        || (ip ++ '.' :: frac).take 1 = ['+']) = true) := by
      rw [htk]
      simp only [Bool.or_eq_true, decide_eq_true_eq, List.cons.injEq, and_true]
      rintro (h2 | h2)
      · exact ne_of_isDig c hc '-' (by decide) h2
      · exact ne_of_isDig c hc '+' (by decide) h2
    have hsign : ¬ ((ip ++ '.' :: frac).take 1 = ['-']) := by
      rw [htk]
      intro h2
      simp only [List.cons.injEq, and_true] at h2
      exact ne_of_isDig c hc '-' (by decide) h2
    rw [if_neg hcnd, if_neg hb_ne_inf, if_neg hb_ne_nan, hbody_tw, hbody_dw]
    simp only [List.drop_succ_cons, List.drop_zero]
    rw [hfr_tw, hfr_dw]
    simp only [List.take_nil]
    rw [if_neg (show ¬ (([] : List Char) = ['e', '+']) from by decide),
      if_neg (show ¬ (([] : List Char) = ['e', '-']) from by decide),
      if_neg hsign]
  · simp only [if_pos, List.singleton_append]
    have hcnd : ((('-' :: (ip ++ '.' :: frac)).take 1 = ['-'])
        || (('-' :: (ip ++ '.' :: frac)).take 1 = ['+'])) = true := by simp
    rw [if_pos hcnd]
    simp only [List.drop_succ_cons, List.drop_zero]
    rw [if_neg hb_ne_inf, if_neg hb_ne_nan, hbody_tw, hbody_dw]
    simp only [List.drop_succ_cons, List.drop_zero]
    rw [hfr_tw, hfr_dw]
    simp only [List.take_nil]
    rw [if_neg (show ¬ (([] : List Char) = ['e', '+']) from by decide),
      if_neg (show ¬ (([] : List Char) = ['e', '-']) from by decide),
      if_pos (show ('-' :: (ip ++ '.' :: frac)).take 1 = ['-'] from rfl)]


theorem isQuoted_eq_head (t : String) (c : Char) (l : List Char) (h : t.data = c :: l) :
    isQuoted t = decide (c = Char.ofNat 39) := by
  unfold isQuoted
  rw [h]
  rfl

theorem parseScalar_renderFloat (m : Int) (e : Nat) (hgood : e = 0 ∨ m % 10 ≠ 0) :
    parseScalar (renderFloat m e) = .vfloat m e := by
  obtain ⟨c, cs, hcons, hc⟩ := floatBodyChars_head m.natAbs e
  have hfm := floatMatch_renderFloat m e
  have hres : resolveTag true (renderFloat m e) = .tfloat := by
    by_cases hm : m < 0
    · have hdata : (renderFloat m e).data = '-' :: floatBodyChars m.natAbs e := by
        rw [renderFloat_data, if_pos hm, List.singleton_append]
      rw [resolveTag_eq true _ '-' _ hdata]
      rw [show resolversFor true '-' = [.tfloat, .tint] from by decide]
      simp [List.find?, regexMatch, hfm]
    · have hdata : (renderFloat m e).data = c :: cs := by
        rw [renderFloat_data, if_neg hm, List.nil_append, hcons]
      rw [resolveTag_eq true _ c cs hdata, resolversFor_digit true c hc]
      simp [List.find?, regexMatch, hfm]
  have hq : isQuoted (renderFloat m e) = false := by
    by_cases hm : m < 0
    · have hdata : (renderFloat m e).data = '-' :: floatBodyChars m.natAbs e := by
        rw [renderFloat_data, if_pos hm, List.singleton_append]
      rw [isQuoted_eq_head _ '-' _ hdata]
      decide
    · have hdata : (renderFloat m e).data = c :: cs := by
        rw [renderFloat_data, if_neg hm, List.nil_append, hcons]
      rw [isQuoted_eq_head _ c cs hdata, decide_eq_false_iff_not]
      exact ne_of_isDig c hc (Char.ofNat 39) (by decide)
  have hshape := constructFloat_shape (renderFloat m e) (decide (m < 0))
    (natToChars (m.natAbs / 10 ^ e))
    (List.replicate (e - (natToChars (m.natAbs % 10 ^ e)).length) '0'
      ++ natToChars (m.natAbs % 10 ^ e))
    (by
      rw [renderFloat_data]
      unfold floatBodyChars
      by_cases hm : m < 0
      · rw [if_pos hm, if_pos (decide_eq_true hm)]
      · rw [if_neg hm, if_neg (by simpa using hm)])
    (natToChars_all_dig _) (natToChars_ne_nil _) (fracChars_all_dig m.natAbs e)
  have hcf : constructFloat (renderFloat m e) = .vfloat m e := by
    rw [hshape]
    cases e with
    | zero =>
      have hfz := fracChars_zero m.natAbs
      rw [hfz]
      simp only [pow_zero, Nat.div_one, List.length_singleton]
      have hp0 : parseDigitsB 10 ['0'] = 0 := by decide
      rw [hp0]
      have harg : (if decide (m < 0) = true
          then -((parseDigitsB 10 (natToChars m.natAbs) * 10 ^ 1 + 0 : Nat) : Int)
          else ((parseDigitsB 10 (natToChars m.natAbs) * 10 ^ 1 + 0 : Nat) : Int))
          = m * 10 := by
        rw [parse_natToChars]
        by_cases hm : m < 0
        · rw [if_pos (decide_eq_true hm)]
          push_cast
          rw [abs_of_neg hm]
          ring
        · rw [if_neg (by simpa using hm)]
          push_cast
          rw [abs_of_nonneg (by omega : (0 : Int) ≤ m)]
          ring
      rw [harg, mkFloatE_zero, normFloat_mul10]
      rfl
    | succ e2 =>
      have hm10 : m % 10 ≠ 0 := by
        rcases hgood with h2 | h2
        · simp at h2
        · exact h2
      have hlen := fracChars_len_pos m.natAbs (e2 + 1) (Nat.succ_pos e2)
      rw [hlen, parse_fracChars, parse_natToChars]
      have hsum : m.natAbs / 10 ^ (e2 + 1) * 10 ^ (e2 + 1) + m.natAbs % 10 ^ (e2 + 1)
          = m.natAbs := by
        rw [Nat.mul_comm]
        exact Nat.div_add_mod m.natAbs (10 ^ (e2 + 1))
      rw [hsum]
      have harg : (if decide (m < 0) = true then -((m.natAbs : Nat) : Int)
          else ((m.natAbs : Nat) : Int)) = m := by
        by_cases hm : m < 0
        · have habs : ((m.natAbs : Nat) : Int) = -m := by
            rw [← Int.natAbs_neg]
            exact Int.natAbs_of_nonneg (by omega)
          rw [if_pos (decide_eq_true hm), habs]
          ring
        · have habs : ((m.natAbs : Nat) : Int) = m := Int.natAbs_of_nonneg (by omega)
          rw [if_neg (by simpa using hm), habs]
      rw [harg, mkFloatE_zero, normFloat_of_ndvd m e2 hm10]
  unfold parseScalar
  rw [if_neg (by rw [hq]; simp)]
  unfold yamlLoadScalar
  rw [hres]
  exact hcf


/-! ## String and special scalars round-trip -/

theorem goodVal_normFloat : ∀ (e : Nat) (m : Int), GoodVal (normFloat m e) := by
  intro e
  induction e with
  | zero => intro m; exact Or.inl rfl
  | succ e2 ih =>
    intro m
    unfold normFloat
    by_cases h : m % 10 = 0
    · rw [if_pos h]
      exact ih (m / 10)
    · rw [if_neg h]
      exact Or.inr h

theorem goodVal_mkFloatE (m : Int) (e : Nat) (k : Int) : GoodVal (mkFloatE m e k) := by
  unfold mkFloatE
  split_ifs <;> apply goodVal_normFloat

theorem goodVal_constructFloat (s : String) : GoodVal (constructFloat s) := by
  simp only [constructFloat]
  split_ifs <;> first | trivial | apply goodVal_mkFloatE

theorem goodVal_yamlLoadScalar (s : String) : GoodVal (yamlLoadScalar s) := by
  unfold yamlLoadScalar
  cases htag : resolveTag true s
  · trivial
  · exact goodVal_constructFloat s
  · trivial
  · trivial
  · trivial

theorem resolversFor_sub (c : Char) (t : Tag) (h : t ∈ resolversFor true c) :
    t ∈ resolversFor false c := by
  unfold resolversFor at *
  split_ifs at * <;> simp_all

theorem find?_none_of_sub (p : Tag → Bool) (l1 l2 : List Tag)
    (hsub : ∀ x ∈ l1, x ∈ l2) (h : l2.find? p = none) : l1.find? p = none := by
  rw [List.find?_eq_none] at *
  exact fun x hx => h x (hsub x hx)

theorem strict_str_of_std (s : String) (h : resolveTag false s = .tstr) :
    resolveTag true s = .tstr := by
  unfold resolveTag at *
  cases hd : s.data with
  | nil =>
    rw [hd] at h
    exact h
  | cons c cs =>
    rw [hd] at h
    have h2 : ((resolversFor false c).find? fun t => regexMatch t s).getD .tstr = .tstr := h
    have hnone : (resolversFor false c).find? (fun t => regexMatch t s) = none := by
      cases hf : (resolversFor false c).find? (fun t => regexMatch t s) with
      | none => rfl
      | some t =>
        rw [hf] at h2
        simp only [Option.getD_some] at h2
        have h3 := List.find?_some hf
        rw [h2] at h3
        simp [regexMatch] at h3
    show ((resolversFor true c).find? fun t => regexMatch t s).getD .tstr = .tstr
    rw [find?_none_of_sub _ _ _ (fun x hx => resolversFor_sub c x hx) hnone]
    rfl

theorem unquote_quoteStr (s : String) : unquote (quoteStr s) = s := by
  have h : ((quoteChar :: s.data ++ [quoteChar]).drop 1).dropLast = s.data := by
    rw [List.cons_append, List.drop_succ_cons, List.drop_zero, List.dropLast_concat]
  unfold unquote quoteStr
  rw [show (String.mk (quoteChar :: s.data ++ [quoteChar])).data
      = quoteChar :: s.data ++ [quoteChar] from rfl, h]

theorem isQuoted_quoteStr (s : String) : isQuoted (quoteStr s) = true := rfl

theorem parseScalar_renderStr (s : String) : parseScalar (renderStr s) = .vstr s := by
  unfold renderStr
  by_cases hcond : (decide (resolveTag false s ≠ Tag.tstr) || isQuoted s) = true
  · rw [if_pos hcond]
    unfold parseScalar
    rw [if_pos (isQuoted_quoteStr s), unquote_quoteStr]
  · have h1 : resolveTag false s = .tstr ∧ isQuoted s = false := by
      simp only [Bool.or_eq_true, decide_eq_true_eq, ne_eq] at hcond
      push_neg at hcond
      exact ⟨hcond.1, by simpa using hcond.2⟩
    rw [if_neg hcond]
    unfold parseScalar
    rw [if_neg (by rw [h1.2]; simp)]
    unfold yamlLoadScalar
    rw [strict_str_of_std s h1.1]

theorem parseKeyScalar_renderStr (s : String) : parseKeyScalar (renderStr s) = s := by
  unfold renderStr
  by_cases hcond : (decide (resolveTag false s ≠ Tag.tstr) || isQuoted s) = true
  · rw [if_pos hcond]
    unfold parseKeyScalar
    rw [if_pos (isQuoted_quoteStr s), unquote_quoteStr]
  · have h1 : isQuoted s = false := by
      simp only [Bool.or_eq_true, decide_eq_true_eq, ne_eq] at hcond
      push_neg at hcond
      simpa using hcond.2
    rw [if_neg hcond]
    unfold parseKeyScalar
    rw [if_neg (by rw [h1]; simp)]

theorem parseScalar_renderValue (v : Value) (hv : GoodVal v) :
    parseScalar (renderValue v) = v := by
  cases v with
  | vint n => exact parseScalar_renderInt n
  | vfloat m e => exact parseScalar_renderFloat m e hv
  | vinf b => cases b <;> decide
  | vnan => decide
  | vbool b => cases b <;> decide
  | vnull => decide
  | vstr s => exact parseScalar_renderStr s


/-! ## Claim theorems -/

/-- C1.  With a declared flag `default` (parser default `"default"`), a YAML
source binding `default: yaml` and an argument vector containing
`--default cli`, the merged store's final value for `default` is the string
`"cli"`; "user-passed" is decided by the literal presence of the
`--default` token in the argument vector (so the skip branch is not taken). -/
theorem c1_explicit_cli_beats_yaml :
    noSpecB ["test.py", "--default", "cli"] "default" = false ∧
    parseArgs [] [.parserArg [⟨"default", false, .vstr "default"⟩], .strArg "test.yaml"]
      ["test.py", "--default", "cli"]
      (fun fn => if fn = "test.yaml" then some [("default", .vstr "yaml")] else none)
      = .ok [("default", .vstr "cli")] := by
  constructor
  · rfl
  · rfl

/-- C2.  For every declared flag `key` whose `--key`/`-key` token does not
appear in the argument vector (so the parser used its own default) and whose
key is bound in the YAML tier, a successful merge leaves the store's value
for that key at the YAML value. -/
theorem c2_yaml_beats_unspecified_default (acts : List ArgAction) (fn : String)
    (m res : Store) (argv : List String) (fs : String → Option Store)
    (key : String) (v : Value)
    (hyaml : isYaml fn = true) (hfs : fs fn = some m)
    (hcfg : "--config" ∉ argv) (hns : noSpecB argv key = true)
    (hkey : lookupStore m key = some v)
    (hrun : parseArgs [] [.parserArg acts, .strArg fn] argv fs = .ok res) :
    lookupStore res key = some v := by
  have hcf : argv.contains "--config" = false := by
    cases hcb : argv.contains "--config"
    · rfl
    · exact absurd ((contains_true_iff _ _).mp hcb) hcfg
  simp only [parseArgs, yamlInps, parserInps, List.filterMap_cons, List.filterMap_nil,
    hyaml, if_true, hcf] at hrun
  simp only [List.length_singleton, List.head?, Option.or] at hrun
  norm_num at hrun
  rw [hfs] at hrun
  unfold parseCliArgs at hrun
  simp only [Option.getD] at hrun
  have hnm : ("--" ++ key) ∉ (parseKnownArgs acts (argv.drop 1)).2 := by
    intro hm
    have h2 := mem_pkaGo_unknown acts (argv.drop 1) _ [] _ hm
    rcases h2 with h3 | h3
    · have h4 : ("--" ++ key) ∈ argv := List.drop_subset 1 argv h3
      have h5 : argv.contains ("--" ++ key) = true := (contains_true_iff _ _).mpr h4
      rw [noSpecB, h5] at hns
      simp at hns
    · simp at h3
  have h1 : lookupStore res key
      = lookupStore (updateParsed m argv (parseKnownArgs acts (argv.drop 1)).1) key :=
    updateUnknown_preserves _ _ _ _ hrun hnm
  have hck : containsKey m key = true := by simp [containsKey, hkey]
  rw [h1, updateParsed_preserves argv _ m key hns hck, hkey]

/-- C2 witness: priority scenario B (parser flag `default` with default
`"default"`, YAML binds `default: yaml`, no CLI override) ends with
`"yaml"`. -/
theorem c2_yaml_beats_unspecified_default_witness :
    lookupStore [("default", Value.vstr "yaml")] "default" = some (Value.vstr "yaml") :=
  c2_yaml_beats_unspecified_default [⟨"default", false, .vstr "default"⟩] "test.yaml"
    [("default", .vstr "yaml")] [("default", .vstr "yaml")] ["test.py"]
    (fun s => if s = "test.yaml" then some [("default", .vstr "yaml")] else none)
    "default" (.vstr "yaml") (by decide) (by decide) (by decide) (by decide)
    (by decide) rfl

/-- C3 counterexample.  The claim says the type-inference function maps
`"None"` to the null value; the strict-bool loader's null regex
(`~|null|Null|NULL|` only) does not match `"None"`, so it stays a string. -/
theorem c3_none_counterexample :
    yamlLoadScalar "None" = .vstr "None" ∧ yamlLoadScalar "None" ≠ .vnull := by
  constructor
  · rfl
  · decide

/-- C3 amended.  The type-inference function maps `"42"` to the integer 42,
`"3.14"` to the float 3.14, `"True"`/`"False"` to booleans, `"yes"` and
`"hello"` to themselves as strings, and `"None"` to the *string* `"None"`
(the null value is produced by `"null"`, `"Null"`, `"NULL"`, `"~"` and the
empty scalar); none of `yes`/`no`/`on`/`off` in any letter case infer to a
boolean. -/
theorem c3_amended_type_inference :
    yamlLoadScalar "42" = .vint 42 ∧
    yamlLoadScalar "3.14" = .vfloat 314 2 ∧
    yamlLoadScalar "True" = .vbool true ∧
    yamlLoadScalar "False" = .vbool false ∧
    yamlLoadScalar "None" = .vstr "None" ∧
    yamlLoadScalar "yes" = .vstr "yes" ∧
    yamlLoadScalar "hello" = .vstr "hello" ∧
    yamlLoadScalar "null" = .vnull ∧
    yamlLoadScalar "Null" = .vnull ∧
    yamlLoadScalar "NULL" = .vnull ∧
    yamlLoadScalar "~" = .vnull ∧
    (["yes", "yeS", "yEs", "yES", "Yes", "YeS", "YEs", "YES",
      "no", "nO", "No", "NO", "on", "oN", "On", "ON",
      "off", "ofF", "oFf", "oFF", "Off", "OfF", "OFf", "OFF"].all
        fun s => !(isVBool (yamlLoadScalar s))) = true := by
  decide

/-- C4 counterexample.  The claim quantifies over *any* store; on a store
that already binds `k` (here to `"v0"`), the second `set_if_absent(k, v2)`
call returns the pre-existing value `"v0"`, not `v1 = "a"`, even though
`v1 ≠ v2`. -/
theorem c4_counterexample :
    (Value.vstr "a" ≠ Value.vstr "b") ∧
    (setdefault (setdefault [("k", .vstr "v0")] "k" (.vstr "a")).1 "k" (.vstr "b")).2
      ≠ .vstr "a" := by
  decide

/-- C4 amended.  For every key `k` and values `v1 ≠ v2`: the second
`set_if_absent` call never changes the store produced by the first call,
and when `k` was absent from the initial store the second call returns
`v1`. -/
theorem c4_amended_setdefault_write_once (s : Store) (k : String) (v1 v2 : Value)
    (_hne : v1 ≠ v2) :
    (setdefault (setdefault s k v1).1 k v2).1 = (setdefault s k v1).1 ∧
    (lookupStore s k = none → (setdefault (setdefault s k v1).1 k v2).2 = v1) := by
  unfold setdefault
  cases hl : lookupStore s k with
  | some w => simp [hl]
  | none => simp [lookup_dictInsert_self]

/-- C4 witness. -/
theorem c4_amended_setdefault_write_once_witness :
    (setdefault (setdefault [] "k" (.vstr "a")).1 "k" (.vstr "b")).1
        = (setdefault [] "k" (.vstr "a")).1 ∧
    (setdefault (setdefault [] "k" (.vstr "a")).1 "k" (.vstr "b")).2 = .vstr "a" := by
  have h := c4_amended_setdefault_write_once [] "k" (.vstr "a") (.vstr "b") (by decide)
  exact ⟨h.1, h.2 (by decide)⟩

/-- C5.  Processing the residual unknown-argument list fails iff the list
has odd length, or some even-index token does not start with `--`, or the
same key token occurs at two distinct even indices; on success every
`(--key, value)` pair leaves `key` (with `--` stripped) bound to the
type-inferred value — in particular `["--alpha", "1", "--beta", "text"]`
ends with `alpha = 1` and `beta = "text"`. -/
theorem c5_unknown_args_errors_and_contents (store : Store) (unknown : List String) :
    (isErr (updateUnknown store unknown) = true ↔
      unknown.length % 2 ≠ 0
      ∨ (∃ p ∈ toPairs unknown, startsDashDash p.1 = false)
      ∨ ¬ ((toPairs unknown).map Prod.fst).Nodup) ∧
    (∀ res, updateUnknown store unknown = .ok res →
      ∀ p ∈ toPairs unknown, lookupStore res (trim2 p.1) = some (yamlLoadScalar p.2)) ∧
    updateUnknown [] ["--alpha", "1", "--beta", "text"]
      = .ok [("alpha", .vint 1), ("beta", .vstr "text")] := by
  refine ⟨?_, ?_, rfl⟩
  · by_cases hodd : unknown.length % 2 ≠ 0
    · simp [updateUnknown, hodd, isErr]
    · rw [updateUnknown, if_neg hodd,
        updUnknownGo_err_iff (toPairs unknown) store [] List.nodup_nil]
      simp [hodd]
  · intro res hok
    by_cases hodd : unknown.length % 2 ≠ 0
    · simp [updateUnknown, hodd] at hok
    · rw [updateUnknown, if_neg hodd] at hok
      exact updUnknownGo_ok_contents (toPairs unknown) store [] res hok

/-- C5 witness: the success clause applied to the concrete residual list
`["--alpha", "1", "--beta", "text"]`. -/
theorem c5_unknown_args_witness :
    lookupStore [("alpha", Value.vint 1), ("beta", Value.vstr "text")] "alpha"
      = some (.vint 1) :=
  (c5_unknown_args_errors_and_contents [] ["--alpha", "1", "--beta", "text"]).2.1
    [("alpha", .vint 1), ("beta", .vstr "text")] rfl
    ("--alpha", "1") (by decide)

/-- C6 (tier 4 modelled from the spec).  For every positional argument
declared on the supplied parser, the lowest-priority default tier leaves
the store's binding for that argument untouched: positional names are
excluded from the "user did not specify, use parser default" handling. -/
theorem c6_positionals_excluded_from_default_tier (acts : List ArgAction)
    (results : List FlagResult) (store : Store) (nm : String)
    (h : nm ∈ get_positional_keys acts) :
    lookupStore (tier4Defaults store results (get_positional_keys acts)) nm
      = lookupStore store nm := by
  have hc : (get_positional_keys acts).contains nm = true :=
    (contains_true_iff _ _).mpr h
  generalize get_positional_keys acts = pos at hc ⊢
  induction results generalizing store with
  | nil => rfl
  | cons r rest ih =>
    simp only [tier4Defaults, List.foldl_cons] at ih ⊢
    rw [ih]
    by_cases hcond : (!r.userSpecified && !(pos.contains r.name)) = true
    · rw [if_pos hcond]
      have hrn : r.name ≠ nm := by
        intro he
        rw [he, hc] at hcond
        simp at hcond
      exact lookup_setdefault_ne store r.name nm r.value (fun he => hrn he.symm)
    · rw [if_neg hcond]

/-- C6 witness. -/
theorem c6_positionals_excluded_witness :
    lookupStore
      (tier4Defaults [] [⟨"positional", .vstr "default", false⟩]
        (get_positional_keys [⟨"positional", true, .vstr "unused"⟩]))
      "positional" = none := by
  exact (c6_positionals_excluded_from_default_tier
    [⟨"positional", true, .vstr "unused"⟩]
    [⟨"positional", .vstr "default", false⟩] [] "positional" (by decide)).trans rfl

/-- C7.  Calling the merge entry point on a non-empty store fails with the
already-initialized error, for every input combination, argument vector and
filesystem — in particular before any source is consulted; equivalently,
a successful merge implies the store was empty at entry. -/
theorem c7_nonempty_store_fails (s : Store) (inps : List Inp) (argv : List String)
    (fs : String → Option Store) (h : s ≠ []) :
    parseArgs s inps argv fs = .error .alreadyInit := by
  simp [parseArgs, h]

/-- C7 witness. -/
theorem c7_nonempty_store_fails_witness :
    parseArgs [("a", .vnull)] [] [] (fun _ => none) = .error .alreadyInit :=
  c7_nonempty_store_fails [("a", .vnull)] [] [] (fun _ => none) (by decide)

/-- C9.  On an empty store, calling the merge entry point with more than one
YAML file argument or more than one declared parser fails with the
ambiguous-source error, for every argument vector and every filesystem —
so before any source is read or any key written. -/
theorem c9_ambiguous_sources_fail (s : Store) (inps : List Inp) (argv : List String)
    (fs : String → Option Store) (hs : s = [])
    (h : 2 ≤ (yamlInps inps).length ∨ 2 ≤ (parserInps inps).length) :
    parseArgs s inps argv fs = .error .ambiguousSource := by
  subst hs
  by_cases hy : 1 < (yamlInps inps).length
  · simp [parseArgs, hy]
  · have hp : 1 < (parserInps inps).length := by omega
    simp [parseArgs, hy, hp]

/-- C9 witness. -/
theorem c9_ambiguous_sources_fail_witness :
    parseArgs [] [.strArg "a.yaml", .strArg "b.yml"] ["test.py"] (fun _ => none)
      = .error .ambiguousSource :=
  c9_ambiguous_sources_fail [] [.strArg "a.yaml", .strArg "b.yml"] ["test.py"]
    (fun _ => none) rfl (by decide)

/-- C10.  When `--config` occurs as the last element of the argument vector
(its first occurrence, so no path token follows it), the merge entry point
reads one element past the end: on an empty store with at most one YAML and
at most one parser input it fails with the unguarded index-out-of-range
error instead of any typed configuration error, for every filesystem. -/
theorem c10_config_last_index_error (s : Store) (inps : List Inp) (pre : List String)
    (fs : String → Option Store) (hs : s = [])
    (hy : (yamlInps inps).length ≤ 1) (hp : (parserInps inps).length ≤ 1)
    (hpre : "--config" ∉ pre) :
    parseArgs s inps (pre ++ ["--config"]) fs = .error .configIndexOut := by
  subst hs
  have hy2 : ¬ 1 < (yamlInps inps).length := by omega
  have hp2 : ¬ 1 < (parserInps inps).length := by omega
  have hmem : "--config" ∈ pre ++ ["--config"] := by simp
  have hidx : idxOf (pre ++ ["--config"]) "--config" = pre.length := by
    rw [idxOf_append_of_not_mem pre ["--config"] "--config" hpre]
    simp [idxOf]
  have hnth : nth (pre ++ ["--config"]) (idxOf (pre ++ ["--config"]) "--config" + 1)
      = none := by
    rw [hidx]
    exact nth_none_of_le _ _ (by simp)
  have hcont : (pre ++ ["--config"]).contains "--config" = true :=
    (contains_true_iff _ _).mpr hmem
  simp [parseArgs, hy2, hp2, hcont, hnth]

/-- C10 witness. -/
theorem c10_config_last_index_error_witness :
    parseArgs [] [] (["test.py"] ++ ["--config"]) (fun _ => none)
      = .error .configIndexOut :=
  c10_config_last_index_error [] [] ["test.py"] (fun _ => none) rfl
    (by decide) (by decide) (by decide)

/-- C8.  For every store whose contents were produced by the documented
inference and merge — typed leaves among integer, float (in the lowest-terms
decimal form `normFloat` always produces, first conjunct), boolean, null
and string — serializing with dump and re-parsing with load yields a
mapping whose keys and typed values equal the original store's contents
(here proved with order preserved, which is stronger than the claim
requires).  The dumper quotes exactly the strings whose plain form the
*standard* YAML 1.1 resolver would retype (so `"yes"` survives as a
string), and the loader re-resolves plain scalars with the strict-bool
table. -/
theorem c8_dump_load_roundtrip :
    (∀ s0 : String, GoodVal (yamlLoadScalar s0)) ∧
    (∀ store : Store, (∀ kv ∈ store, GoodVal kv.2) →
      loadPairs (dumpPairs store) = store) := by
  refine ⟨goodVal_yamlLoadScalar, ?_⟩
  intro store h
  induction store with
  | nil => rfl
  | cons kv rest ih =>
    obtain ⟨k, v⟩ := kv
    show (parseKeyScalar (renderStr k), parseScalar (renderValue v))
        :: loadPairs (dumpPairs rest) = (k, v) :: rest
    rw [parseKeyScalar_renderStr, parseScalar_renderValue v (h (k, v) (by simp)),
      ih (fun kv2 hkv2 => h kv2 (by simp [hkv2]))]

/-- C8 witness: a store holding every value kind round-trips. -/
theorem c8_dump_load_roundtrip_witness :
    loadPairs (dumpPairs [("alpha", .vint 1), ("beta", .vstr "text"), ("flag", .vstr "yes"),
      ("pi", .vfloat 314 2), ("neg", .vfloat (-15) 4), ("b", .vbool true), ("n", .vnull),
      ("42", .vint 0), ("inf", .vinf false), ("nan", .vnan)])
      = [("alpha", .vint 1), ("beta", .vstr "text"), ("flag", .vstr "yes"),
      ("pi", .vfloat 314 2), ("neg", .vfloat (-15) 4), ("b", .vbool true), ("n", .vnull),
      ("42", .vint 0), ("inf", .vinf false), ("nan", .vnan)] :=
  c8_dump_load_roundtrip.2 _ (by decide)

end Hackerargs
